import Mathlib

/-!
Verification of the gomod package manager of cachi2
(src/cachi2/core/package_managers/gomod.py) against its specification.

The Python source is shallowly embedded: pure fragments become Lean
functions over `List Char` / `String`, Python `None` becomes `Option`,
Python truthiness of strings/ints is modelled explicitly, and functions
that raise become `Except`.  External collaborators (the Go toolchain,
the git library, the `semver` parsing routine) are treated as oracles:
their *outputs* are inputs of the embedded functions.
-/

namespace Cachi2

/-! ## String helpers with Python semantics -/

/-- Python `s.split(sep)` for a single-character separator: keeps empty
fields, `"".split(c) = [""]`. -/
def splitChars (sep : Char) : List Char → List (List Char)
  | [] => [[]]
  | c :: rest =>
    match splitChars sep rest with
    | [] => [[]]
    | h :: t => if c = sep then [] :: h :: t else (c :: h) :: t

/-- Python `line.split(" ")`. -/
def pySplitSpace (s : String) : List String :=
  (splitChars ' ' s.data).map (fun l => ⟨l⟩)

/-- Python `s.startswith(p)`. -/
def startsWithStr (pfx s : String) : Bool :=
  pfx.data.isPrefixOf s.data

/-- Python `s[n:]`. -/
def strDrop (s : String) (n : Nat) : String := ⟨s.data.drop n⟩

/-- Python `s[0:n]`. -/
def strTake (s : String) (n : Nat) : String := ⟨s.data.take n⟩

/-- Python `s.rstrip()` (trailing-whitespace removal; the lines handled by
the code only carry ASCII whitespace). -/
def pyRstrip (s : String) : String :=
  ⟨(s.data.reverse.dropWhile Char.isWhitespace).reverse⟩

/-- Python `str.replace(pat, rep)`: replace every (non-overlapping,
leftmost-first) occurrence.  The callers in the source always pass a
non-empty pattern, so the empty-pattern guard is never reached. -/
def replaceChars (pat rep : List Char) : List Char → List Char
  | [] => []
  | c :: rest =>
    if pat ≠ [] ∧ pat.isPrefixOf (c :: rest) then
      rep ++ replaceChars pat rep (rest.drop (pat.length - 1))
    else
      c :: replaceChars pat rep rest
termination_by l => l.length
decreasing_by
  · simp only [List.length_cons, List.length_drop]
    omega
  · simp

/-- Python `s.replace(pat, rep)`. -/
def replaceStr (s pat rep : String) : String :=
  ⟨replaceChars pat.data rep.data s.data⟩

/-- Value of a decimal digit string (the regex group `\d+` passed to
`int`). -/
def digitsToNat (ds : List Char) : Nat :=
  ds.foldl (fun acc c => acc * 10 + (c.toNat - '0'.toNat)) 0

/-- Python truthiness of an optional string (`None` and `""` are falsy). -/
def pyTruthyStr : Option String → Bool
  | none => false
  | some s => !s.isEmpty

/-- Python `a or b` on optional strings: `a` unless it is `None` or
empty. -/
def pyOrOpt (a b : Option String) : Option String :=
  match a with
  | some s => if s.isEmpty then b else some s
  | none => b

/-! ## The semver library model

`semver.VersionInfo` as used by the source: parsed components, `str()`
rendering, `bump_patch`, and the precedence comparison (build metadata is
ignored by comparisons, numeric prerelease identifiers compare
numerically and sort below alphanumeric ones). -/

structure VersionInfo where
  major : Nat
  minor : Nat
  patch : Nat
  prerelease : Option String
  build : Option String
deriving DecidableEq, Repr

/-- `str(semver.VersionInfo)`: `major.minor.patch[-prerelease][+build]`
(the optional parts appear only when truthy). -/
def versionStr (v : VersionInfo) : String :=
  Nat.repr v.major ++ "." ++ Nat.repr v.minor ++ "." ++ Nat.repr v.patch
    ++ (match v.prerelease with
        | some p => if p.isEmpty then "" else "-" ++ p
        | none => "")
    ++ (match v.build with
        | some b => if b.isEmpty then "" else "+" ++ b
        | none => "")

/-- `VersionInfo.bump_patch()`: patch + 1, prerelease and build
cleared. -/
def bumpPatch (v : VersionInfo) : VersionInfo :=
  ⟨v.major, v.minor, v.patch + 1, none, none⟩

/-- A prerelease identifier made only of digits compares numerically. -/
def identIsNum (s : String) : Bool :=
  !s.isEmpty && s.data.all Char.isDigit

/-- Compare two prerelease identifiers (numeric < alphanumeric). -/
def cmpIdent (a b : String) : Ordering :=
  match identIsNum a, identIsNum b with
  | true, true => compare (digitsToNat a.data) (digitsToNat b.data)
  | true, false => Ordering.lt
  | false, true => Ordering.gt
  | false, false => compare a b

/-- Compare dot-separated prerelease identifier lists. -/
def cmpIdentList : List String → List String → Ordering
  | [], [] => Ordering.eq
  | [], _ :: _ => Ordering.lt
  | _ :: _, [] => Ordering.gt
  | x :: xs, y :: ys =>
    match cmpIdent x y with
    | Ordering.eq => cmpIdentList xs ys
    | o => o

/-- Semver precedence comparison; a version without prerelease is greater
than one with a prerelease at the same numeric triple. -/
def semverCmp (x y : VersionInfo) : Ordering :=
  match compare x.major y.major with
  | Ordering.eq =>
    match compare x.minor y.minor with
    | Ordering.eq =>
      match compare x.patch y.patch with
      | Ordering.eq =>
        match pyTruthyStr x.prerelease, pyTruthyStr y.prerelease with
        | false, false => Ordering.eq
        | false, true => Ordering.gt
        | true, false => Ordering.lt
        | true, true =>
          cmpIdentList
            ((splitChars '.' (x.prerelease.getD "").data).map (fun l => (⟨l⟩ : String)))
            ((splitChars '.' (y.prerelease.getD "").data).map (fun l => (⟨l⟩ : String)))
      | o => o
    | o => o
  | o => o

/-- `x < y` on semvers (the source only uses the strict comparison). -/
def semverLt (x y : VersionInfo) : Bool :=
  semverCmp x y = Ordering.lt

/-! ## The Git version oracle: `_get_golang_version` and
`_get_golang_pseudo_version` -/

/-- Zero-padded two-digit rendering (strftime field). -/
def pad2 (n : Nat) : String := if n < 10 then "0" ++ Nat.repr n else Nat.repr n

/-- Proleptic-Gregorian civil date for a day count from 1970-01-01
(the date side of `datetime.utcfromtimestamp`). -/
def civilFromDays (z : Nat) : Nat × Nat × Nat :=
  let z' := z + 719468
  let era := z' / 146097
  let doe := z' % 146097
  let yoe := (doe - doe / 1460 + doe / 36524 - doe / 146096) / 365
  let y := yoe + era * 400
  let doy := doe - (365 * yoe + yoe / 4 - yoe / 100)
  let mp := (5 * doy + 2) / 153
  let d := doy - (153 * mp + 2) / 5 + 1
  let m := if mp < 10 then mp + 3 else mp - 9
  (if m ≤ 2 then y + 1 else y, m, d)

/-- `datetime.utcfromtimestamp(epoch).strftime("%Y%m%d%H%M%S")` for a
(non-negative) Unix timestamp, as used for the pseudo-version. -/
def formatGoTimestamp (epoch : Nat) : String :=
  let days := epoch / 86400
  let secs := epoch % 86400
  let c := civilFromDays days
  Nat.repr c.1 ++ pad2 c.2.1 ++ pad2 c.2.2
    ++ pad2 (secs / 3600) ++ pad2 (secs % 3600 / 60) ++ pad2 (secs % 60)

/-- Sanity: 2019-11-07T20:29:36Z (spec scenario 2). -/
theorem formatGoTimestamp_20191107202936 :
    formatGoTimestamp 1573158576 = "20191107202936" := by decide

/-- Sanity: 2019-11-07T20:40:50Z (spec scenario 3). -/
theorem formatGoTimestamp_20191107204050 :
    formatGoTimestamp 1573159250 = "20191107204050" := by decide

/-- The git commit facts the oracle reads: `committed_date` (Unix epoch
seconds) and the full hex SHA. -/
structure CommitInfo where
  committedDate : Nat
  hexsha : String
deriving DecidableEq

/-- Embedding of `_get_golang_pseudo_version(commit, tag,
module_major_version, subpath)`.  The pseudo-base tag is passed as its
parsed semver (`_get_semantic_version_from_tag(tag.name, subpath)`), which
is how every caller obtained it.  The f-string
`v{module_major_version or "0"}.0.0-...` uses Python truthiness: both
`None` and `0` collapse to `"0"`. -/
def getGolangPseudoVersion (commit : CommitInfo) (tag : Option VersionInfo)
    (moduleMajorVersion : Option Nat) : String :=
  let commitTimestamp := formatGoTimestamp commit.committedDate
  let commitHash := strTake commit.hexsha 12
  match tag with
  | none =>
    "v" ++ (match moduleMajorVersion with
            | some n => if n = 0 then "0" else Nat.repr n
            | none => "0")
      ++ ".0.0-" ++ commitTimestamp ++ "-" ++ commitHash
  | some tagSemanticVersion =>
    if pyTruthyStr tagSemanticVersion.prerelease then
      "v" ++ versionStr tagSemanticVersion ++ "." ++ "0." ++ commitTimestamp ++ "-" ++ commitHash
    else
      "v" ++ versionStr (bumpPatch tagSemanticVersion) ++ "-" ++ "0." ++ commitTimestamp ++ "-" ++ commitHash

/-- The regex `(?:.+/v)(?P<major_version>\d+)$` on the module name: the
name must be a non-empty chunk, then `/v`, then one or more digits up to
the end; the digit group is returned as a number. -/
def parseVNSuffix (s : String) : Option Nat :=
  let rev := s.data.reverse
  let ds := rev.takeWhile Char.isDigit
  match rev.dropWhile Char.isDigit with
  | 'v' :: '/' :: tail =>
    if ds.isEmpty || tail.isEmpty then none else some (digitsToNat ds.reverse)
  | _ => none

/-- The candidate major versions of `_get_golang_version`: a truthy
`module_major_version` is tried alone, otherwise `(1, 0)`.  Python
truthiness makes a parsed major of `0` fall into the `(1, 0)` branch. -/
def majorVersionsToTry (moduleMajorVersion : Option Nat) : List Nat :=
  match moduleMajorVersion with
  | some m => if m = 0 then [1, 0] else [m]
  | none => [1, 0]

/-- Embedding of `_get_semantic_version_from_tag(tag_name, subpath)`.
`parse` is the `semver.VersionInfo.parse` oracle (`none` models the
`ValueError` of an unparseable name). -/
def getSemverFromTag (parse : String → Option VersionInfo)
    (tagName : String) (subpath : Option String) : Option VersionInfo :=
  match subpath with
  | some sp => parse (replaceStr tagName (sp ++ "/v") "")
  | none => parse (strDrop tagName 1)

/-- One step of the `_get_highest_semver_tag` scan: keep the strictly
higher semver (ties keep the incumbent). -/
def highestStep (parse : String → Option VersionInfo) (major : Nat)
    (subpath : Option String)
    (highest : Option (String × VersionInfo)) (tagName : String) :
    Option (String × VersionInfo) :=
  match getSemverFromTag parse tagName subpath with
  | none => highest
  | some sv =>
    if sv.major ≠ major then highest
    else
      match highest with
      | none => some (tagName, sv)
      | some (_, hv) => if semverLt hv sv then some (tagName, sv) else highest

/-- Embedding of `_get_highest_semver_tag(repo, commit, major_version,
all_reachable, subpath)`: the tag listing (either the tags pointing at
the commit or all reachable tags) is given as `tagNames`. -/
def getHighestSemverTag (parse : String → Option VersionInfo)
    (tagNames : List String) (major : Nat) (subpath : Option String) :
    Option (String × VersionInfo) :=
  let pfx := match subpath with
    | some sp => sp ++ "/v"
    | none => "v"
  (tagNames.filter (fun t => startsWithStr pfx t)).foldl
    (highestStep parse major subpath) none

/-- First major version whose tag search succeeds (the `for
major_version in major_versions_to_try` loops). -/
def firstHighestTag (parse : String → Option VersionInfo)
    (tagNames : List String) (subpath : Option String) :
    List Nat → Option (String × VersionInfo)
  | [] => none
  | m :: rest =>
    match getHighestSemverTag parse tagNames m subpath with
    | some r => some r
    | none => firstHighestTag parse tagNames subpath rest

/-- The git facts `_get_golang_version` reads: tags pointing at the
target commit, tags reachable from it, and the commit itself. -/
structure RepoTags where
  tagsPointingAt : List String
  tagsReachable : List String
  commit : CommitInfo

/-- Embedding of `_get_golang_version(module_name, git_path, commit_sha,
update_tags, subpath)`.  The `git fetch` side effect and commit
resolution are outside the model; `repo` carries their results.  In the
pseudo-version-with-base-tag call the source passes the loop's major
version as `module_major_version`, which that call never reads; the
model passes the parsed declared major instead, which is likewise
unread. -/
def getGolangVersion (parse : String → Option VersionInfo)
    (moduleName : String) (repo : RepoTags) (subpath : Option String) : String :=
  let moduleMajorVersion := parseVNSuffix moduleName
  let majors := majorVersionsToTry moduleMajorVersion
  match firstHighestTag parse repo.tagsPointingAt subpath majors with
  | some (tagName, _) =>
    (match subpath with
     | none => tagName
     | some sp => replaceStr tagName (sp ++ "/") "")
  | none =>
    match firstHighestTag parse repo.tagsReachable subpath majors with
    | some (_, baseVer) => getGolangPseudoVersion repo.commit (some baseVer) moduleMajorVersion
    | none => getGolangPseudoVersion repo.commit none moduleMajorVersion

/-- Concatenation of strings is associative (data-level fact). -/
theorem strAppend_assoc (a b c : String) : a ++ b ++ c = a ++ (b ++ c) := by
  apply String.ext
  simp [String.data_append]

/-- Scenario check: one commit past `v1.0.0` at 2019-11-07T20:29:36Z with
SHA starting `e92462c73bba` gets `v1.0.1-0.20191107202936-e92462c73bba`. -/
theorem pseudo_version_scenario_bare :
    getGolangPseudoVersion ⟨1573158576, "e92462c73bbac8a21d51ebf0fdb7ba377a716d2b"⟩
      (some ⟨1, 0, 0, none, none⟩) none = "v1.0.1-0.20191107202936-e92462c73bba" := by
  decide

/-- Scenario check: pseudo-base `v2.2.0-alpha`, commit `863073fae6ef` at
2019-11-07T20:40:50Z gets `v2.2.0-alpha.0.20191107204050-863073fae6ef`. -/
theorem pseudo_version_scenario_prerelease :
    getGolangPseudoVersion ⟨1573159250, "863073fae6ef7623caf40d2c2db2c0a34fbc4820"⟩
      (some ⟨2, 2, 0, some "alpha", none⟩) (some 2) =
      "v2.2.0-alpha.0.20191107204050-863073fae6ef" := by
  decide

/-- C1: pseudo-versions are built from T = the commit time in UTC as
YYYYMMDDHHMMSS and H = the first 12 hex characters of the SHA: with a
pseudo-base tag whose semver has a nonempty prerelease the result is
`v{base}.0.{T}-{H}` (period separator, base unchanged); with a
pseudo-base tag without prerelease the base patch is bumped and the
result is `v{bumped}-0.{T}-{H}` (dash separator); with no pseudo-base
tag the result is `v{declared_major or 0}.0.0-{T}-{H}`. -/
theorem pseudo_version_construction (c : CommitInfo) (tag : Option VersionInfo)
    (mmv : Option Nat) :
    (∀ v p, tag = some v → v.prerelease = some p → p ≠ "" →
      getGolangPseudoVersion c tag mmv =
        "v" ++ versionStr v ++ ".0." ++ formatGoTimestamp c.committedDate
          ++ "-" ++ strTake c.hexsha 12)
    ∧ (∀ v, tag = some v → (v.prerelease = none ∨ v.prerelease = some "") →
      getGolangPseudoVersion c tag mmv =
        "v" ++ versionStr ⟨v.major, v.minor, v.patch + 1, none, none⟩ ++ "-0."
          ++ formatGoTimestamp c.committedDate ++ "-" ++ strTake c.hexsha 12)
    ∧ (tag = none →
        ((mmv = none ∨ mmv = some 0) →
          getGolangPseudoVersion c tag mmv =
            "v0.0.0-" ++ formatGoTimestamp c.committedDate ++ "-" ++ strTake c.hexsha 12)
        ∧ (∀ n, mmv = some n → n ≠ 0 →
          getGolangPseudoVersion c tag mmv =
            "v" ++ Nat.repr n ++ ".0.0-" ++ formatGoTimestamp c.committedDate
              ++ "-" ++ strTake c.hexsha 12)) := by
  refine ⟨fun v p htag hpre hne => ?_, fun v htag hpre => ?_,
    fun htag => ⟨fun hm => ?_, fun n hm hn => ?_⟩⟩
  · subst htag
    have hpe : p.isEmpty = false := by
      cases hpe : p.isEmpty
      · rfl
      · exact absurd ((String.isEmpty_iff p).mp hpe) hne
    have ht : pyTruthyStr v.prerelease = true := by
      rw [hpre]
      simp [pyTruthyStr, hpe]
    have h1 : getGolangPseudoVersion c (some v) mmv =
        "v" ++ versionStr v ++ "." ++ "0." ++ formatGoTimestamp c.committedDate
          ++ "-" ++ strTake c.hexsha 12 := by
      simp only [getGolangPseudoVersion, ht, if_true]
    rw [h1, strAppend_assoc ("v" ++ versionStr v) "." "0.",
      (by decide : (("." : String) ++ "0.") = ".0.")]
  · subst htag
    have ht : pyTruthyStr v.prerelease = false := by
      rcases hpre with h | h
      · simp [pyTruthyStr, h]
      · rw [h]; decide
    have h1 : getGolangPseudoVersion c (some v) mmv =
        "v" ++ versionStr ⟨v.major, v.minor, v.patch + 1, none, none⟩ ++ "-" ++ "0."
          ++ formatGoTimestamp c.committedDate ++ "-" ++ strTake c.hexsha 12 := by
      simp only [getGolangPseudoVersion, ht, if_false, Bool.false_eq_true, bumpPatch]
    rw [h1, strAppend_assoc ("v" ++ versionStr ⟨v.major, v.minor, v.patch + 1, none, none⟩) "-" "0.",
      (by decide : (("-" : String) ++ "0.") = "-0.")]
  · subst htag
    rcases hm with h | h <;> subst h <;>
      (first
        | rw [(by simp only [getGolangPseudoVersion] :
              getGolangPseudoVersion c none none =
                "v" ++ "0" ++ ".0.0-" ++ formatGoTimestamp c.committedDate
                  ++ "-" ++ strTake c.hexsha 12),
            (by decide : (("v" : String) ++ "0") = "v0"),
            (by decide : (("v0" : String) ++ ".0.0-") = "v0.0.0-")]
        | rw [(by simp only [getGolangPseudoVersion, reduceIte] :
              getGolangPseudoVersion c none (some 0) =
                "v" ++ "0" ++ ".0.0-" ++ formatGoTimestamp c.committedDate
                  ++ "-" ++ strTake c.hexsha 12),
            (by decide : (("v" : String) ++ "0") = "v0"),
            (by decide : (("v0" : String) ++ ".0.0-") = "v0.0.0-")])
  · subst htag; subst hm
    simp only [getGolangPseudoVersion]
    rw [if_neg hn]

/-- Witness for C1 (spec scenario 3, prerelease pseudo-base). -/
theorem pseudo_version_construction_witness :
    getGolangPseudoVersion ⟨1573159250, "863073fae6ef7623caf40d2c2db2c0a34fbc4820"⟩
      (some ⟨2, 2, 0, some "alpha", none⟩) (some 2) =
      "v" ++ versionStr ⟨2, 2, 0, some "alpha", none⟩ ++ ".0."
        ++ formatGoTimestamp 1573159250
        ++ "-" ++ strTake "863073fae6ef7623caf40d2c2db2c0a34fbc4820" 12 :=
  (pseudo_version_construction ⟨1573159250, "863073fae6ef7623caf40d2c2db2c0a34fbc4820"⟩
      (some ⟨2, 2, 0, some "alpha", none⟩) (some 2)).1
    ⟨2, 2, 0, some "alpha", none⟩ "alpha" rfl rfl (by decide)

/-- C2 counterexample: the module name `example.com/v1` has no `/vN`
suffix with N ≥ 2, yet the code parses a declared major of 1 and tries
only major version 1, not the claimed fallback (1, 0). -/
theorem candidate_majors_counterexample :
    parseVNSuffix "example.com/v1" = some 1 ∧
    majorVersionsToTry (parseVNSuffix "example.com/v1") = [1] := by decide

/-- C2 (amended: the regex accepts any `/vN` suffix; a parsed major
N ≥ 1 d is tried alone, and only a parsed major of 0 — or no suffix at all —
falls back to (1, 0)): the candidate majors follow the parsed suffix, and
when the fallback (1, 0) applies, a v1 tag on the commit is preferred
over any v0 tag. -/
theorem golang_version_candidate_majors (parse : String → Option VersionInfo)
    (moduleName : String) (repo : RepoTags) :
    (∀ n, parseVNSuffix moduleName = some n → n ≠ 0 →
      majorVersionsToTry (parseVNSuffix moduleName) = [n])
    ∧ ((parseVNSuffix moduleName = none ∨ parseVNSuffix moduleName = some 0) →
      majorVersionsToTry (parseVNSuffix moduleName) = [1, 0])
    ∧ ((parseVNSuffix moduleName = none ∨ parseVNSuffix moduleName = some 0) →
      ∀ tagName tagVer,
        getHighestSemverTag parse repo.tagsPointingAt 1 none = some (tagName, tagVer) →
        getGolangVersion parse moduleName repo none = tagName) := by
  refine ⟨fun n h hn => ?_, fun h => ?_, fun h tagName tagVer hhit => ?_⟩
  · rw [h]; simp [majorVersionsToTry, hn]
  · rcases h with h | h <;> simp [majorVersionsToTry, h]
  · have hm : majorVersionsToTry (parseVNSuffix moduleName) = [1, 0] := by
      rcases h with h | h <;> simp [majorVersionsToTry, h]
    simp [getGolangVersion, hm, firstHighestTag, hhit]

/-- Concrete `semver.VersionInfo.parse` oracle for the C2 witness. -/
def parseOracleW : String → Option VersionInfo := fun s =>
  if s = "1.0.0" then some ⟨1, 0, 0, none, none⟩
  else if s = "0.5.0" then some ⟨0, 5, 0, none, none⟩
  else none

/-- Concrete repository for the C2 witness: a v0 tag and a v1 tag both
point at the commit. -/
def repoW : RepoTags := ⟨["v0.5.0", "v1.0.0"], [], ⟨0, "aaaabbbbccccdddd"⟩⟩

/-- Witness for C2: with no `/vN` suffix and both `v0.5.0` and `v1.0.0`
pointing at the commit, the v1 tag wins. -/
theorem golang_version_candidate_majors_witness :
    getGolangVersion parseOracleW "example.com/mod" repoW none = "v1.0.0" :=
  (golang_version_candidate_majors parseOracleW "example.com/mod" repoW).2.2
    (Or.inl (by decide)) "v1.0.0" ⟨1, 0, 0, none, none⟩ (by decide)

/-! ## C7: `_should_vendor_deps` -/

/-- Embedding of `_should_vendor_deps(flags, app_dir, strict)`.  The
filesystem facts `vendor.exists()` and `vendor.is_dir()` are passed as
booleans.  Returns `(should vendor, allowed to make changes)` or the
`PackageRejected` reason. -/
def shouldVendorDeps (flags : List String) (vendorExists vendorIsDir strict : Bool) :
    Except String (Bool × Bool) :=
  if "gomod-vendor-check" ∈ flags then Except.ok (true, !vendorExists)
  else if "gomod-vendor" ∈ flags then Except.ok (true, true)
  else if strict && vendorIsDir then
    Except.error
      "The gomod-vendor or gomod-vendor-check flag must be set when your repository has vendored dependencies."
  else Except.ok (false, false)

/-- C7: the vendor-mode decision follows the flag table: with no vendor
flags, an existing vendor directory under strict configuration causes
PackageRejected and otherwise the resolve proceeds without vendoring;
gomod-vendor alone always vendors and may modify; gomod-vendor-check
vendors and may modify only when the vendor directory does not already
exist; with both flags and an existing vendor directory the decision is
vendor, must not modify. -/
theorem shouldVendorDeps_follows_flag_table
    (flags : List String) (vendorExists vendorIsDir strict : Bool) :
    (("gomod-vendor" ∉ flags ∧ "gomod-vendor-check" ∉ flags) →
      (strict = true → vendorIsDir = true →
        ∃ msg, shouldVendorDeps flags vendorExists vendorIsDir strict = Except.error msg) ∧
      (strict = false ∨ vendorIsDir = false →
        shouldVendorDeps flags vendorExists vendorIsDir strict = Except.ok (false, false)))
    ∧ (("gomod-vendor" ∈ flags ∧ "gomod-vendor-check" ∉ flags) →
      shouldVendorDeps flags vendorExists vendorIsDir strict = Except.ok (true, true))
    ∧ ("gomod-vendor-check" ∈ flags →
      shouldVendorDeps flags vendorExists vendorIsDir strict = Except.ok (true, !vendorExists))
    ∧ (("gomod-vendor" ∈ flags ∧ "gomod-vendor-check" ∈ flags ∧ vendorExists = true) →
      shouldVendorDeps flags vendorExists vendorIsDir strict = Except.ok (true, false)) := by
  refine ⟨fun h => ⟨fun hs hd => ?_, fun ho => ?_⟩, fun h => ?_, fun h => ?_, fun h => ?_⟩
  · have hres : shouldVendorDeps flags vendorExists vendorIsDir strict =
        Except.error
          "The gomod-vendor or gomod-vendor-check flag must be set when your repository has vendored dependencies." := by
      simp [shouldVendorDeps, h.1, h.2, hs, hd]
    exact ⟨_, hres⟩
  · rcases ho with ho | ho <;> simp [shouldVendorDeps, h.1, h.2, ho]
  · simp [shouldVendorDeps, h.1, h.2]
  · simp [shouldVendorDeps, h]
  · simp [shouldVendorDeps, h.1, h.2.1, h.2.2]

/-- Witness for C7: both flags with an existing vendor directory give
(vendor, must not modify). -/
theorem shouldVendorDeps_follows_flag_table_witness :
    shouldVendorDeps ["gomod-vendor", "gomod-vendor-check"] true true true =
      Except.ok (true, false) :=
  (shouldVendorDeps_follows_flag_table
    ["gomod-vendor", "gomod-vendor-check"] true true true).2.2.2
    ⟨by decide, by decide, rfl⟩

/-! ## The deps listing: `_load_list_deps`, `_get_dep_version` and the
version assignment of the package graph -/

/-- A non-`""` string is not empty in the Boolean sense. -/
theorem isEmpty_false_of_ne_empty {s : String} (h : s ≠ "") : s.isEmpty = false := by
  cases hpe : s.isEmpty
  · rfl
  · exact absurd ((String.isEmpty_iff s).mp hpe) h

/-- The empty string is empty in the Boolean sense. -/
theorem empty_isEmpty : ("" : String).isEmpty = true := by decide

/-- The `Replace` sub-object of a `Module` reference in `go list -deps
-json` output, as read through `replace.get(...)`. -/
structure ModuleReplace where
  version? : Option String
  path? : Option String
deriving DecidableEq

/-- A `Module` reference, as read through `module.get(...)`. -/
structure ModuleRef where
  version? : Option String
  replace? : Option ModuleReplace
deriving DecidableEq

/-- The per-package data `_load_list_deps` retains: `Module`, `Deps` and
`Standard`.  A `none` field models an absent key.  An absent-or-falsy
(empty-dict) `Module`/`Replace` is modelled as `none`/`none` because the
source only tests them for truthiness. -/
structure DepInfo where
  module? : Option ModuleRef
  deps? : Option (List String)
  standard? : Option Bool
deriving DecidableEq

/-- Embedding of `_get_dep_version(dep_info)`: no Module gives no
version; a (truthy) Replace gives `Replace.Version or Replace.Path`;
otherwise `Module.Version`. -/
def getDepVersion (info : DepInfo) : Option String :=
  match info.module? with
  | none => none
  | some m =>
    match m.replace? with
    | some r => pyOrOpt r.version? r.path?
    | none => m.version?

/-- The version assigned to a package-graph dependency in
`_resolve_gomod`: `None` when the `Standard` key is present, else
`_get_dep_version(dep_info) or module_version`. -/
def emittedDepVersion (moduleVersion : String) (info : DepInfo) : Option String :=
  if info.standard?.isSome then none
  else
    match getDepVersion info with
    | some v => if v.isEmpty then some moduleVersion else some v
    | none => some moduleVersion

/-- A raw object of the `go list -e -deps -json` stream.  The outer
`Option` of each field is key presence, the inner one distinguishes a
JSON `null` value (`pkg.get(k)` collapses both to `None`). -/
structure RawPkg where
  importPath : String
  moduleRaw : Option (Option ModuleRef)
  depsRaw : Option (Option (List String))
  standardRaw : Option (Option Bool)
deriving DecidableEq

/-- Python `pkg.get(k)`: `None` for an absent key or a `null` value. -/
def pyGet {α : Type} : Option (Option α) → Option α
  | some (some v) => some v
  | _ => none

/-- The body of the `_load_list_deps` loop for one package: keep
`Module`, `Deps`, `Standard` exactly when `pkg.get(k)` is not `None`. -/
def loadInfo (p : RawPkg) : DepInfo :=
  ⟨pyGet p.moduleRaw, pyGet p.depsRaw, pyGet p.standardRaw⟩

/-- Embedding of `_load_list_deps`: the import-path-keyed records. -/
def loadListDeps (pkgs : List RawPkg) : List (String × DepInfo) :=
  pkgs.map (fun p => (p.importPath, loadInfo p))

/-- C4: package-level version assignment: a `Standard` entry gets a null
version; otherwise the version is Replace.Version, else Replace.Path
(when a Replace object is present), else Module.Version, and an empty or
missing result falls back to the main module version. -/
theorem dep_version_resolution (mv : String) (info : DepInfo) :
    (info.standard?.isSome → emittedDepVersion mv info = none)
    ∧ (info.standard? = none → info.module? = none →
        emittedDepVersion mv info = some mv)
    ∧ (∀ m r v, info.standard? = none → info.module? = some m → m.replace? = some r →
        r.version? = some v → v ≠ "" → emittedDepVersion mv info = some v)
    ∧ (∀ m r p, info.standard? = none → info.module? = some m → m.replace? = some r →
        (r.version? = none ∨ r.version? = some "") → r.path? = some p → p ≠ "" →
        emittedDepVersion mv info = some p)
    ∧ (∀ m r, info.standard? = none → info.module? = some m → m.replace? = some r →
        (r.version? = none ∨ r.version? = some "") → (r.path? = none ∨ r.path? = some "") →
        emittedDepVersion mv info = some mv)
    ∧ (∀ m v, info.standard? = none → info.module? = some m → m.replace? = none →
        m.version? = some v → v ≠ "" → emittedDepVersion mv info = some v)
    ∧ (∀ m, info.standard? = none → info.module? = some m → m.replace? = none →
        (m.version? = none ∨ m.version? = some "") →
        emittedDepVersion mv info = some mv) := by
  refine ⟨fun hs => ?_, fun hs hm => ?_, fun m r v hs hm hr hv hne => ?_,
    fun m r p hs hm hr hv hp hne => ?_, fun m r hs hm hr hv hp => ?_,
    fun m v hs hm hr hv hne => ?_, fun m hs hm hr hv => ?_⟩
  · simp [emittedDepVersion, hs]
  · simp [emittedDepVersion, getDepVersion, hs, hm]
  · simp [emittedDepVersion, getDepVersion, pyOrOpt, hs, hm, hr, hv,
      isEmpty_false_of_ne_empty hne]
  · rcases hv with hv | hv <;>
      simp [emittedDepVersion, getDepVersion, pyOrOpt, hs, hm, hr, hv, hp,
        isEmpty_false_of_ne_empty hne, empty_isEmpty]
  · rcases hv with hv | hv <;> rcases hp with hp | hp <;>
      simp [emittedDepVersion, getDepVersion, pyOrOpt, hs, hm, hr, hv, hp, empty_isEmpty]
  · simp [emittedDepVersion, getDepVersion, hs, hm, hr, hv,
      isEmpty_false_of_ne_empty hne]
  · rcases hv with hv | hv <;>
      simp [emittedDepVersion, getDepVersion, hs, hm, hr, hv, empty_isEmpty]

/-- Witness for C4: a Replace object with a version overrides the module
version. -/
theorem dep_version_resolution_witness :
    emittedDepVersion "vMain"
      ⟨some ⟨some "v1.2.3", some ⟨some "v9.9.9", some "./rep"⟩⟩, none, none⟩ =
      some "v9.9.9" :=
  (dep_version_resolution "vMain"
      ⟨some ⟨some "v1.2.3", some ⟨some "v9.9.9", some "./rep"⟩⟩, none, none⟩).2.2.1
    ⟨some "v1.2.3", some ⟨some "v9.9.9", some "./rep"⟩⟩
    ⟨some "v9.9.9", some "./rep"⟩ "v9.9.9" rfl rfl rfl rfl (by decide)

/-- C10: an entry whose JSON object carries a `Standard` key with any
non-null value — the explicit value `false` included — is kept by the
listing loader and classified standard-library (null version) by the
resolver, which tests only key presence. -/
theorem standard_false_still_null_version (pkgs : List RawPkg) (p : RawPkg)
    (mv : String) (b : Bool) (hmem : p ∈ pkgs) (h : p.standardRaw = some (some b)) :
    (p.importPath, loadInfo p) ∈ loadListDeps pkgs ∧
    (loadInfo p).standard? = some b ∧
    emittedDepVersion mv (loadInfo p) = none := by
  refine ⟨List.mem_map_of_mem _ hmem, ?_, ?_⟩
  · simp [loadInfo, pyGet, h]
  · simp [emittedDepVersion, loadInfo, pyGet, h]

/-- Witness for C10: `Standard: false` still gets a null version. -/
theorem standard_false_still_null_version_witness :
    ("example.com/pkg", loadInfo ⟨"example.com/pkg", none, none, some (some false)⟩) ∈
      loadListDeps [⟨"example.com/pkg", none, none, some (some false)⟩] ∧
    (loadInfo ⟨"example.com/pkg", none, none, some (some false)⟩).standard? = some false ∧
    emittedDepVersion "v1.0.0" (loadInfo ⟨"example.com/pkg", none, none, some (some false)⟩) = none :=
  standard_false_still_null_version [⟨"example.com/pkg", none, none, some (some false)⟩]
    ⟨"example.com/pkg", none, none, some (some false)⟩ "v1.0.0" false (by decide) rfl

/-! ## C8: the top-level package loop of `_resolve_gomod` -/

/-- A `go-package` record as emitted by the resolver. -/
structure PkgRecord where
  name : String
  version : Option String
deriving DecidableEq

/-- A top-level package together with its package-level dependencies. -/
structure TopPackage where
  pkg : PkgRecord
  pkgDeps : List PkgRecord
deriving DecidableEq

/-- Embedding of the package loop of `_resolve_gomod`: iterate the
ordered package names with a `processed` set; an already-processed name
is skipped, otherwise its listed deps are versioned, added to
`processed`, and the package is emitted with the main module version.
The listing lookup is total (`package_info[k]`); a missing key would be
a `KeyError` crash, which the claim does not concern. -/
def resolvePackages (info : String → DepInfo) (moduleVersion : String) :
    List String → List String → List TopPackage
  | [], _ => []
  | p :: rest, processed =>
    if p ∈ processed then resolvePackages info moduleVersion rest processed
    else
      let depNames := ((info p).deps?).getD []
      ⟨⟨p, some moduleVersion⟩,
        depNames.map (fun d => ⟨d, emittedDepVersion moduleVersion (info d)⟩)⟩ ::
        resolvePackages info moduleVersion rest (processed ++ depNames)

/-- Invariant of the package loop: nothing emitted is in the incoming
`processed` set, and each emitted package is absent from the dep lists
of the earlier emitted packages. -/
theorem resolvePackages_invariant (info : String → DepInfo) (mv : String) :
    ∀ (pkgList processed : List String),
      (∀ t ∈ resolvePackages info mv pkgList processed, t.pkg.name ∉ processed) ∧
      (resolvePackages info mv pkgList processed).Pairwise
        (fun a b => b.pkg.name ∉ a.pkgDeps.map PkgRecord.name) := by
  intro pkgList
  induction pkgList with
  | nil => intro processed; simp [resolvePackages]
  | cons p rest ih =>
    intro processed
    by_cases hp : p ∈ processed
    · simpa [resolvePackages, hp] using ih processed
    · have ihr := ih (processed ++ ((info p).deps?).getD [])
      simp only [resolvePackages, hp, if_false]
      constructor
      · intro t ht
        rcases List.mem_cons.mp ht with h | h
        · subst h; exact hp
        · intro habs
          exact (ihr.1 t h) (List.mem_append.mpr (Or.inl habs))
      · refine List.Pairwise.cons ?_ ihr.2
        intro b hb habs
        have hnames : b.pkg.name ∈ ((info p).deps?).getD [] := by
          simpa using habs
        exact (ihr.1 b hb) (List.mem_append.mpr (Or.inr hnames))

/-- C8: every top-level package emitted by a resolve is absent from the
union of the Deps lists of the top-level packages emitted before it: the
processed set starts empty, each emitted package adds its listed deps,
and a name already in the set is skipped rather than emitted. -/
theorem top_level_package_not_among_earlier_deps (info : String → DepInfo)
    (mv : String) (pkgList : List String) :
    (resolvePackages info mv pkgList []).Pairwise
      (fun a b => b.pkg.name ∉ a.pkgDeps.map PkgRecord.name) :=
  (resolvePackages_invariant info mv pkgList []).2

/-! ## C3: the module listing loop and replacement reconciliation of
`_resolve_gomod` -/

/-- A module-level dependency record: name, version, and the optional
`replaces` sub-record (old name, old version) for a user replacement. -/
structure GomodDep where
  name : String
  version : String
  replaces : Option (String × String)
deriving DecidableEq

/-- Embedding of one iteration of the `for line in module_lines` loop:
`line.split(" ")`, the 4-part local-path replace shape, the 5-part
replace shape (tracking the old name when it was user-requested), the
plain 2-part shape, and the warn-and-skip fallback.  Returns the emitted
record (if any) and the used replaced name (if any). -/
def processModuleLine (replacedDepNames : List String) (line : String) :
    Option GomodDep × Option String :=
  match pySplitSpace line with
  | [a, _b, c, d] =>
    if c = "=>" then (some ⟨a, d, none⟩, none) else (none, none)
  | [a, b, c, d, e] =>
    if c = "=>" then
      if a ∈ replacedDepNames then (some ⟨d, e, some (a, b)⟩, some a)
      else (some ⟨d, e, none⟩, none)
    else (none, none)
  | [a, b] => (some ⟨a, b, none⟩, none)
  | _ => (none, none)

/-- The whole loop: emitted records in order and the set (as a list) of
used replaced dependency names. -/
def processModuleLines (replacedDepNames : List String) :
    List String → List GomodDep × List String
  | [] => ([], [])
  | l :: rest =>
    let hd := processModuleLine replacedDepNames l
    let tl := processModuleLines replacedDepNames rest
    (hd.1.toList ++ tl.1, hd.2.toList ++ tl.2)

/-- The reconciliation at the end of the module-lines processing: the
unused replacements are `replaced_dep_names - used_replaced_dep_names`;
a non-empty difference raises `PackageRejected` whose message cites
those names (the error payload carries them). -/
def resolveModuleDeps (replacedDepNames lines : List String) :
    Except (List String) (List GomodDep) :=
  if (replacedDepNames.filter
      (fun n => decide (n ∉ (processModuleLines replacedDepNames lines).2))).isEmpty then
    Except.ok (processModuleLines replacedDepNames lines).1
  else
    Except.error (replacedDepNames.filter
      (fun n => decide (n ∉ (processModuleLines replacedDepNames lines).2)))

/-- A name is used exactly when it is a requested name that appears as
the old name of a 5-part replace line. -/
theorem processModuleLine_used_iff (req : List String) (l r : String) :
    (processModuleLine req l).2 = some r ↔
      (r ∈ req ∧ ∃ b d e, pySplitSpace l = [r, b, "=>", d, e]) := by
  unfold processModuleLine
  generalize hsp : pySplitSpace l = parts
  match parts with
  | [] => simp
  | [a] => simp
  | [a, b] => simp
  | [a, b, c] => simp
  | [a, b, c, d] =>
    by_cases hc : c = "=>" <;> simp [hc]
  | [a, b, c, d, e] =>
    by_cases hc : c = "=>"
    · subst hc
      by_cases ha : a ∈ req
      · simp only [ha, if_true, if_pos rfl, Option.some.injEq]
        constructor
        · rintro rfl
          exact ⟨ha, b, d, e, rfl⟩
        · rintro ⟨-, b', d', e', heq⟩
          simp only [List.cons.injEq] at heq
          exact heq.1
      · simp only [ha, if_false, if_pos rfl]
        constructor
        · rintro ⟨⟩
        · rintro ⟨hr, b', d', e', heq⟩
          simp only [List.cons.injEq] at heq
          exact absurd (heq.1 ▸ hr) ha
    · simp [hc]
  | a :: b :: c :: d :: e :: f :: rest => simp

/-- A used name always has an emitted record carrying the
`(old name, old version)` replaces sub-record. -/
theorem processModuleLine_replaces (req : List String) (l r : String)
    (h : (processModuleLine req l).2 = some r) :
    ∃ g, (processModuleLine req l).1 = some g ∧
      ∃ oldVersion, g.replaces = some (r, oldVersion) := by
  unfold processModuleLine at h ⊢
  generalize hsp : pySplitSpace l = parts at h ⊢
  match parts with
  | [] => exact absurd h (by simp)
  | [a] => exact absurd h (by simp)
  | [a, b] => exact absurd h (by simp)
  | [a, b, c] => exact absurd h (by simp)
  | [a, b, c, d] =>
    by_cases hc : c = "=>" <;> simp [hc] at h
  | [a, b, c, d, e] =>
    by_cases hc : c = "=>"
    · subst hc
      by_cases ha : a ∈ req
      · simp only [ha, if_true, if_pos rfl, Option.some.injEq] at h ⊢
        exact ⟨⟨d, e, some (a, b)⟩, rfl, b, by rw [h]⟩
      · simp [ha] at h
    · simp [hc] at h
  | a :: b :: c :: d :: e :: f :: rest => exact absurd h (by simp)

/-- Lifting of the per-line used-name characterization to the loop. -/
theorem processModuleLines_used_iff (req lines : List String) (r : String) :
    r ∈ (processModuleLines req lines).2 ↔
      (r ∈ req ∧ ∃ l ∈ lines, ∃ b d e, pySplitSpace l = [r, b, "=>", d, e]) := by
  induction lines with
  | nil => simp [processModuleLines]
  | cons l rest ih =>
    simp only [processModuleLines, List.mem_append, Option.mem_toList, Option.mem_def,
      processModuleLine_used_iff, ih]
    constructor
    · rintro (⟨hr, b, d, e, hsp⟩ | ⟨hr, l', hl', hex⟩)
      · exact ⟨hr, l, List.mem_cons_self l rest, b, d, e, hsp⟩
      · exact ⟨hr, l', List.mem_cons_of_mem l hl', hex⟩
    · rintro ⟨hr, l', hl', hex⟩
      rcases List.mem_cons.mp hl' with h | h
      · subst h; exact Or.inl ⟨hr, hex⟩
      · exact Or.inr ⟨hr, l', h, hex⟩

/-- Lifting of the replaces-record guarantee to the loop. -/
theorem processModuleLines_replaces (req lines : List String) (r : String)
    (h : r ∈ (processModuleLines req lines).2) :
    ∃ g ∈ (processModuleLines req lines).1, ∃ oldVersion,
      g.replaces = some (r, oldVersion) := by
  induction lines with
  | nil => simp [processModuleLines] at h
  | cons l rest ih =>
    simp only [processModuleLines, List.mem_append, Option.mem_toList, Option.mem_def] at h ⊢
    rcases h with h | h
    · obtain ⟨g, hg, hrep⟩ := processModuleLine_replaces req l r h
      exact ⟨g, Or.inl hg, hrep⟩
    · obtain ⟨g, hg, hrep⟩ := ih h
      exact ⟨g, Or.inr hg, hrep⟩

/-- C3: for every user-requested replacement, either its name is honored
— it appears as the old name of a replace directive in the module
listing and the emitted record carries the (old name, old version)
replaces sub-record — or the resolve raises PackageRejected citing it;
the raised set is exactly requested minus honored, and the exception is
raised exactly when that difference is non-empty. -/
theorem replacement_reconciliation (req lines : List String) :
    (∀ r, r ∈ (processModuleLines req lines).2 ↔
      (r ∈ req ∧ ∃ l ∈ lines, ∃ b d e, pySplitSpace l = [r, b, "=>", d, e]))
    ∧ (∀ r ∈ (processModuleLines req lines).2,
        ∃ g ∈ (processModuleLines req lines).1, ∃ oldVersion,
          g.replaces = some (r, oldVersion))
    ∧ ((∃ names, resolveModuleDeps req lines = Except.error names) ↔
        ∃ r ∈ req, r ∉ (processModuleLines req lines).2)
    ∧ (∀ names, resolveModuleDeps req lines = Except.error names →
        ∀ r, r ∈ names ↔ (r ∈ req ∧ r ∉ (processModuleLines req lines).2)) := by
  refine ⟨fun r => processModuleLines_used_iff req lines r,
    fun r hr => processModuleLines_replaces req lines r hr, ?_, ?_⟩
  · constructor
    · rintro ⟨names, hnames⟩
      unfold resolveModuleDeps at hnames
      by_cases he :
          (req.filter (fun n => decide (n ∉ (processModuleLines req lines).2))).isEmpty
      · rw [if_pos he] at hnames
        exact absurd hnames (by simp)
      · have hne : req.filter (fun n => decide (n ∉ (processModuleLines req lines).2)) ≠ [] := by
          intro h0
          exact he (by rw [h0]; rfl)
        obtain ⟨r, hr⟩ := List.exists_mem_of_ne_nil _ hne
        have hm := List.mem_filter.mp hr
        exact ⟨r, hm.1, by simpa using hm.2⟩
    · rintro ⟨r, hr, hnr⟩
      have hmem : r ∈ req.filter (fun n => decide (n ∉ (processModuleLines req lines).2)) :=
        List.mem_filter.mpr ⟨hr, by simpa using hnr⟩
      have hne :
          ¬(req.filter (fun n => decide (n ∉ (processModuleLines req lines).2))).isEmpty = true := by
        intro h0
        rw [List.isEmpty_iff] at h0
        rw [h0] at hmem
        exact absurd hmem (List.not_mem_nil r)
      refine ⟨req.filter (fun n => decide (n ∉ (processModuleLines req lines).2)), ?_⟩
      unfold resolveModuleDeps
      rw [if_neg hne]
  · intro names hnames r
    unfold resolveModuleDeps at hnames
    by_cases he : (req.filter (fun n => decide (n ∉ (processModuleLines req lines).2))).isEmpty
    · rw [if_pos he] at hnames
      exact absurd hnames (by simp)
    · rw [if_neg he] at hnames
      have hn : req.filter (fun n => decide (n ∉ (processModuleLines req lines).2)) = names :=
        Except.error.inj hnames
      subst hn
      simp [List.mem_filter]

/-- Witness for C3: the `pizza` replacement never shows up in the module
listing, so the resolve raises. -/
theorem replacement_reconciliation_witness :
    ∃ names, resolveModuleDeps ["pizza"] ["foo v1.0.0"] = Except.error names :=
  (replacement_reconciliation ["pizza"] ["foo v1.0.0"]).2.2.1.mpr
    ⟨"pizza", by decide, by decide⟩

/-! ## C6: `_vet_local_deps` -/

/-- `".." in Path(version).parts`: on the POSIX paths handled here a
component of `..` survives `PurePath` normalisation exactly when a
slash-separated field equals `..` (the dropped `""`/`"."` fields and a
root field never equal `..`). -/
def pathContainsDotDot (v : String) : Bool :=
  (splitChars '/' v.data).any (fun part => part = ['.', '.'])

/-- `bool(PureWindowsPath(version).root)`: a root is present when the
string starts with a separator, or with an ASCII drive letter, `:` and a
separator. -/
def pureWindowsHasRoot (v : String) : Bool :=
  match v.data with
  | [] => false
  | c :: rest =>
    if c = '/' || c = '\\' then true
    else
      match rest with
      | c2 :: c3 :: _ => c.isAlpha && c2 = ':' && (c3 = '/' || c3 = '\\')
      | _ => false

/-- A dependency as the vetting loop sees it: `dep["version"]` may be
`None` (standard library). -/
structure VetDep where
  name : String
  version : Option String
deriving DecidableEq

/-- The per-version check of `_vet_local_deps`: the `..` test only runs
for versions starting with `.`; otherwise absolute and
Windows-drive-rooted paths are rejected. -/
def vetVersionError (v : String) : Option String :=
  if startsWithStr "." v && pathContainsDotDot v then
    some ("Path to gomod dependency contains ..: " ++ v)
  else if startsWithStr "/" v || pureWindowsHasRoot v then
    some ("Absolute paths to gomod dependencies are not supported: " ++ v)
  else none

/-- Embedding of `_vet_local_deps(dependencies)`: falsy (missing or
empty) versions are skipped; the first offending version raises
`UnsupportedFeature`. -/
def vetLocalDeps : List VetDep → Except String Unit
  | [] => Except.ok ()
  | d :: rest =>
    match d.version with
    | none => vetLocalDeps rest
    | some v =>
      if v.isEmpty then vetLocalDeps rest
      else
        match vetVersionError v with
        | some e => Except.error e
        | none => vetLocalDeps rest

/-- C6 counterexample: the version `a/../b` contains `..` as a path
segment, yet `_vet_local_deps` accepts it (the `..` test only runs for
versions starting with `.`), contradicting the claim that such an input
makes the resolve raise UnsupportedFeature. -/
theorem vet_local_deps_counterexample :
    vetLocalDeps [⟨"foo", some "a/../b"⟩] = Except.ok () ∧
    pathContainsDotDot "a/../b" = true := ⟨rfl, by decide⟩

/-- C6 (amended: a vetted version never starts with `/`, `\` or a
Windows drive root, and a version that starts with `.` contains no `..`
segment; the `..` restriction does not apply to versions not starting
with `.`): vetting succeeds exactly when every non-empty version
satisfies these conditions. -/
theorem vet_local_deps_characterisation (deps : List VetDep) :
    vetLocalDeps deps = Except.ok () ↔
      ∀ d ∈ deps, ∀ v, d.version = some v → v ≠ "" →
        (startsWithStr "/" v = false ∧ pureWindowsHasRoot v = false ∧
          (startsWithStr "." v = true → pathContainsDotDot v = false)) := by
  induction deps with
  | nil => simp [vetLocalDeps]
  | cons d rest ih =>
    cases hv : d.version with
    | none =>
      simp only [vetLocalDeps, hv, ih]
      constructor
      · intro h d' hd' v hv' hne
        rcases List.mem_cons.mp hd' with h' | h'
        · subst h'; rw [hv] at hv'; exact absurd hv' (by simp)
        · exact h d' h' v hv' hne
      · intro h d' hd' v hv' hne
        exact h d' (List.mem_cons_of_mem d hd') v hv' hne
    | some v =>
      by_cases hemp : v.isEmpty
      · have hveq : v = "" := (String.isEmpty_iff v).mp hemp
        subst hveq
        simp only [vetLocalDeps, hv, hemp, if_true, ih]
        constructor
        · intro h d' hd' v' hv' hne
          rcases List.mem_cons.mp hd' with h' | h'
          · subst h'; rw [hv] at hv'
            exact absurd (Option.some.inj hv').symm hne
          · exact h d' h' v' hv' hne
        · intro h d' hd' v' hv' hne
          exact h d' (List.mem_cons_of_mem d hd') v' hv' hne
      · have hne : v ≠ "" := by
          intro h0; subst h0; exact hemp empty_isEmpty
        cases herr : vetVersionError v with
        | some e =>
          simp only [vetLocalDeps, hv, hemp, if_false, herr, Bool.false_eq_true]
          constructor
          · intro h; exact absurd h (by simp)
          · intro h
            have := h d (List.mem_cons_self d rest) v hv hne
            unfold vetVersionError at herr
            by_cases h1 : startsWithStr "." v && pathContainsDotDot v
            · rw [if_pos h1] at herr
              have h1' := Bool.and_eq_true_iff.mp h1
              exact absurd (this.2.2 h1'.1) (by rw [h1'.2]; simp)
            · rw [if_neg h1] at herr
              by_cases h2 : startsWithStr "/" v || pureWindowsHasRoot v
              · rcases Bool.or_eq_true_iff.mp h2 with h2' | h2'
                · exact absurd this.1 (by rw [h2']; simp)
                · exact absurd this.2.1 (by rw [h2']; simp)
              · rw [if_neg h2] at herr
                exact absurd herr (by simp)
        | none =>
          simp only [vetLocalDeps, hv, hemp, if_false, herr, Bool.false_eq_true, ih]
          have hcond : startsWithStr "/" v = false ∧ pureWindowsHasRoot v = false ∧
              (startsWithStr "." v = true → pathContainsDotDot v = false) := by
            unfold vetVersionError at herr
            by_cases h1 : startsWithStr "." v && pathContainsDotDot v
            · rw [if_pos h1] at herr; exact absurd herr (by simp)
            · rw [if_neg h1] at herr
              by_cases h2 : startsWithStr "/" v || pureWindowsHasRoot v
              · rw [if_pos h2] at herr; exact absurd herr (by simp)
              · have h2f : (startsWithStr "/" v || pureWindowsHasRoot v) = false :=
                  Bool.eq_false_iff.mpr h2
                have h2' := Bool.or_eq_false_iff.mp h2f
                refine ⟨h2'.1, h2'.2, fun hdot => ?_⟩
                cases hdd : pathContainsDotDot v
                · rfl
                · exact absurd (show (startsWithStr "." v && pathContainsDotDot v) = true by
                    rw [hdot, hdd]; rfl) h1
          constructor
          · intro h d' hd' v' hv' hne'
            rcases List.mem_cons.mp hd' with h' | h'
            · subst h'; rw [hv] at hv'
              cases Option.some.inj hv'
              exact hcond
            · exact h d' h' v' hv' hne'
          · intro h d' hd' v' hv' hne'
            exact h d' (List.mem_cons_of_mem d hd') v' hv' hne'

/-- Witness for C6: a clean relative path and a stdlib entry pass. -/
theorem vet_local_deps_characterisation_witness :
    vetLocalDeps [⟨"m", some "./local/sub"⟩, ⟨"std", none⟩, ⟨"n", some "v1.0.0"⟩] =
      Except.ok () :=
  (vet_local_deps_characterisation
    [⟨"m", some "./local/sub"⟩, ⟨"std", none⟩, ⟨"n", some "v1.0.0"⟩]).mpr (by decide)

/-! ## C5: `_merge_bundle_dirs` / `_merge_files` on a `list` file -/

/-- Dropping trailing whitespace twice is the same as once. -/
theorem dropWhile_idem (p : Char → Bool) (l : List Char) :
    (l.dropWhile p).dropWhile p = l.dropWhile p := by
  induction l with
  | nil => rfl
  | cons c t ih =>
    by_cases hc : p c
    · simp [List.dropWhile_cons, hc, ih]
    · simp [List.dropWhile_cons, hc]

/-- `rstrip` is idempotent. -/
theorem pyRstrip_idem (s : String) : pyRstrip (pyRstrip s) = pyRstrip s := by
  unfold pyRstrip
  apply String.ext
  simp [List.reverse_reverse, dropWhile_idem]

/-- Embedding of `_merge_files(src, dst)` on line lists: rstrip every
line of both files, sort the set union, drop the empty line. -/
def mergeFiles (srcLines dstLines : List String) : List String :=
  ((((srcLines ++ dstLines).map pyRstrip).toFinset).erase "").sort (· ≤ ·)

/-- The file-level rule of `_merge_bundle_dirs` at a `list` path: a
source file is `(lines, lock-present)`.  No source file leaves the
destination alone; a missing destination receives a plain copy; an
existing destination is line-merged only when the source has the
`list.lock` sibling, and is otherwise left untouched. -/
def mergeListFile (src : Option (List String × Bool)) (dst : Option (List String)) :
    Option (List String) :=
  match src with
  | none => dst
  | some (content, lock) =>
    match dst with
    | none => some content
    | some d => if lock then some (mergeFiles content d) else some d

/-- The normalised line set of a file: rstripped, empty line dropped. -/
def normLines (l : List String) : Finset String :=
  ((l.map pyRstrip).toFinset).erase ""

/-- `_merge_files` output is the sorted normalised union. -/
theorem mergeFiles_eq (a b : List String) :
    mergeFiles a b = (normLines a ∪ normLines b).sort (· ≤ ·) := by
  unfold mergeFiles normLines
  rw [List.map_append, List.toFinset_append, Finset.erase_union_distrib]

/-- Members of a normalised line set are rstripped and non-empty. -/
theorem mem_normLines {x : String} {l : List String} (h : x ∈ normLines l) :
    pyRstrip x = x ∧ x ≠ "" := by
  unfold normLines at h
  have hne := Finset.ne_of_mem_erase h
  have h' := Finset.mem_of_mem_erase h
  rw [List.mem_toFinset] at h'
  obtain ⟨y, -, rfl⟩ := List.mem_map.mp h'
  exact ⟨pyRstrip_idem y, hne⟩

/-- Normalising a sorted clean set gives the set back. -/
theorem normLines_sort (S : Finset String)
    (h : ∀ x ∈ S, pyRstrip x = x ∧ x ≠ "") :
    normLines (S.sort (· ≤ ·)) = S := by
  unfold normLines
  have hmap : (S.sort (· ≤ ·)).map pyRstrip = S.sort (· ≤ ·) := by
    apply List.map_congr_left ?_ |>.trans (List.map_id _)
    intro x hx
    exact (h x ((Finset.mem_sort _).mp hx)).1
  rw [hmap, Finset.sort_toFinset]
  exact Finset.erase_eq_of_not_mem (fun habs => (h "" habs).2 rfl)

/-- Normalising a merge result gives the union of the normalisations. -/
theorem normLines_mergeFiles (a b : List String) :
    normLines (mergeFiles a b) = normLines a ∪ normLines b := by
  rw [mergeFiles_eq]
  apply normLines_sort
  intro x hx
  rcases Finset.mem_union.mp hx with h | h
  · exact mem_normLines h
  · exact mem_normLines h

/-- C5 counterexample: when the `list.lock` sibling is missing on one
side, the merge order matters — A (no lock, line `a`) then B (lock,
line `b`) into an empty destination gives the merged file, while B then
A leaves B's copy untouched. -/
theorem list_merge_order_counterexample :
    mergeListFile (some (["b"], true)) (mergeListFile (some (["a"], false)) none) ≠
    mergeListFile (some (["a"], false)) (mergeListFile (some (["b"], true)) none) := by
  intro h
  have hL : mergeListFile (some (["b"], true)) (mergeListFile (some (["a"], false)) none) =
      some (mergeFiles ["b"] ["a"]) := rfl
  have hR : mergeListFile (some (["a"], false)) (mergeListFile (some (["b"], true)) none) =
      some ["b"] := rfl
  rw [hL, hR] at h
  have hmem : "a" ∈ mergeFiles ["b"] ["a"] := by
    rw [mergeFiles_eq, Finset.mem_sort]
    apply Finset.mem_union_right
    unfold normLines
    rw [Finset.mem_erase]
    refine ⟨by decide, ?_⟩
    rw [List.mem_toFinset]
    decide
  rw [Option.some.inj h] at hmem
  exact absurd hmem (by decide)

/-- C5 (amended: the `list` contents are independent of the merge order
provided every `list` file present in either source directory has its
`list.lock` sibling there): with locks present, merging A then B into
any destination equals merging B then A. -/
theorem list_merge_order_commutes (a b : Option (List String × Bool))
    (d : Option (List String))
    (ha : ∀ c l, a = some (c, l) → l = true)
    (hb : ∀ c l, b = some (c, l) → l = true) :
    mergeListFile b (mergeListFile a d) = mergeListFile a (mergeListFile b d) := by
  match a, b with
  | none, none => rfl
  | none, some (cb, lb) => rfl
  | some (ca, la), none => rfl
  | some (ca, la), some (cb, lb) =>
    have hla : la = true := ha ca la rfl
    have hlb : lb = true := hb cb lb rfl
    subst hla; subst hlb
    match d with
    | none =>
      show some (mergeFiles cb ca) = some (mergeFiles ca cb)
      rw [mergeFiles_eq, mergeFiles_eq, Finset.union_comm]
    | some dl =>
      show some (mergeFiles cb (mergeFiles ca dl)) = some (mergeFiles ca (mergeFiles cb dl))
      have h1 : mergeFiles cb (mergeFiles ca dl) =
          (normLines cb ∪ (normLines ca ∪ normLines dl)).sort (· ≤ ·) := by
        rw [mergeFiles_eq, normLines_mergeFiles]
      have h2 : mergeFiles ca (mergeFiles cb dl) =
          (normLines ca ∪ (normLines cb ∪ normLines dl)).sort (· ≤ ·) := by
        rw [mergeFiles_eq, normLines_mergeFiles]
      rw [h1, h2]
      congr 2
      rw [← Finset.union_assoc, Finset.union_comm (normLines cb) (normLines ca),
        Finset.union_assoc]

/-- Witness for C5: both sources carry the lock; either order yields the
same merged `list`. -/
theorem list_merge_order_commutes_witness :
    mergeListFile (some (["y x"], true)) (mergeListFile (some (["x"], true)) none) =
    mergeListFile (some (["x"], true)) (mergeListFile (some (["y x"], true)) none) :=
  list_merge_order_commutes (some (["x"], true)) (some (["y x"], true)) none
    (fun _c l h => ((congrArg Prod.snd (Option.some.inj h)).symm : l = true))
    (fun _c l h => ((congrArg Prod.snd (Option.some.inj h)).symm : l = true))

/-! ## C9: `_module_lines_from_modules_txt` -/

/-- A module line of `vendor/modules.txt`: `"# " + rest`. -/
def isModLine (l : String) : Bool := startsWithStr "# " l

/-- A package line: anything not starting with `#`. -/
def isPkgLine (l : String) : Bool := !(startsWithStr "#" l)

/-- A line starting with `#` but with neither `"# "` nor `"##"` as a
prefix (the malformed case). -/
def badHashLine (l : String) : Bool :=
  startsWithStr "#" l && !(startsWithStr "# " l) && !(startsWithStr "##" l)

/-- A line starting with `"# "` starts with `"#"`. -/
theorem startsHash_of_modLine {l : String} (h : startsWithStr "# " l = true) :
    startsWithStr "#" l = true := by
  unfold startsWithStr at h ⊢
  cases hd : l.data with
  | nil =>
    rw [hd] at h
    exact absurd h (by decide)
  | cons c cs =>
    rw [hd] at h
    simp only [show ("# " : String).data = ['#', ' '] from rfl,
      show ("#" : String).data = ['#'] from rfl, List.isPrefixOf] at h ⊢
    rcases Bool.and_eq_true_iff.mp h with ⟨h1, -⟩
    simp [List.isPrefixOf, h1]

/-- A line starting with `"##"` starts with `"#"`. -/
theorem startsHash_of_marker {l : String} (h : startsWithStr "##" l = true) :
    startsWithStr "#" l = true := by
  unfold startsWithStr at h ⊢
  cases hd : l.data with
  | nil =>
    rw [hd] at h
    exact absurd h (by decide)
  | cons c cs =>
    rw [hd] at h
    simp only [show ("##" : String).data = ['#', '#'] from rfl,
      show ("#" : String).data = ['#'] from rfl, List.isPrefixOf] at h ⊢
    rcases Bool.and_eq_true_iff.mp h with ⟨h1, -⟩
    simp [List.isPrefixOf, h1]

/-- A package line is neither a module line nor a marker line. -/
theorem pkgLine_not_hash {l : String} (h : isPkgLine l = true) :
    isModLine l = false ∧ startsWithStr "##" l = false := by
  unfold isPkgLine at h
  have h' : startsWithStr "#" l = false := by
    cases hb : startsWithStr "#" l
    · rfl
    · rw [hb] at h; exact absurd h (by decide)
  constructor
  · cases hb : isModLine l
    · rfl
    · exact absurd (startsHash_of_modLine hb) (by rw [h']; decide)
  · cases hb : startsWithStr "##" l
    · rfl
    · exact absurd (startsHash_of_marker hb) (by rw [h']; decide)

/-- The line loop of `_module_lines_from_modules_txt`: `moduleLines`
collects the `"# "`-stripped lines, `hasPkgs` records module strings
that received a package (the `has_packages` dict keyed by line string).
The first malformed line raises `UnexpectedFormat`. -/
def modulesTxtGo : List String → List String → List String →
    Except String (List String × List String)
  | [], moduleLines, hasPkgs => Except.ok (moduleLines, hasPkgs)
  | l :: rest, moduleLines, hasPkgs =>
    if isPkgLine l then
      match moduleLines.getLast? with
      | none =>
        Except.error ("vendor/modules.txt: package has no parent module: " ++ l)
      | some m => modulesTxtGo rest moduleLines (m :: hasPkgs)
    else if isModLine l then
      modulesTxtGo rest (moduleLines ++ [strDrop l 2]) hasPkgs
    else if startsWithStr "##" l then
      modulesTxtGo rest moduleLines hasPkgs
    else
      Except.error ("vendor/modules.txt: unexpected format: " ++ l)

/-- Embedding of `_module_lines_from_modules_txt` on the file's lines:
run the loop, then keep the module lines marked in `has_packages`. -/
def moduleLinesFromModulesTxt (lines : List String) : Except String (List String) :=
  match modulesTxtGo lines [] [] with
  | Except.error e => Except.error e
  | Except.ok (moduleLines, hasPkgs) =>
    Except.ok (moduleLines.filter (fun m => decide (m ∈ hasPkgs)))

/-- Spec-side: some package line appears before any module line. -/
def pkgBeforeModule : List String → Bool
  | [] => false
  | l :: rest => isPkgLine l || (!(isModLine l) && pkgBeforeModule rest)

/-- Spec-side: the stripped module lines, in order. -/
def specModuleStrings (lines : List String) : List String :=
  lines.filterMap (fun l => if isModLine l then some (strDrop l 2) else none)

/-- Spec-side: the module strings that get at least one package
associated, reading the lines with a current-module accumulator (a
package line associates with the most recent module line). -/
def specAssoc (cur : Option String) : List String → List String
  | [] => []
  | l :: rest =>
    if isPkgLine l then
      match cur with
      | some m => m :: specAssoc (some m) rest
      | none => specAssoc none rest
    else if isModLine l then specAssoc (some (strDrop l 2)) rest
    else specAssoc cur rest

/-- The loop raises exactly when a package line arrives with no module
line collected, or a malformed `#` line appears. -/
theorem modulesTxtGo_error_iff (lines : List String) : ∀ ml hp : List String,
    (∃ e, modulesTxtGo lines ml hp = Except.error e) ↔
      ((ml.isEmpty && pkgBeforeModule lines) || lines.any badHashLine) = true := by
  induction lines with
  | nil =>
    intro ml hp
    simp [modulesTxtGo, pkgBeforeModule]
  | cons l rest ih =>
    intro ml hp
    by_cases hpkg : isPkgLine l
    · have hbad : badHashLine l = false := by
        unfold badHashLine
        have h' : startsWithStr "#" l = false := by
          unfold isPkgLine at hpkg
          cases hb : startsWithStr "#" l
          · rfl
          · rw [hb] at hpkg; exact absurd hpkg (by decide)
        rw [h']; rfl
      cases hml : ml.getLast? with
      | none =>
        have hml' : ml = [] := by
          cases ml with
          | nil => rfl
          | cons a t => simp [List.getLast?_concat] at hml
        subst hml'
        simp only [modulesTxtGo, hpkg, if_true, hml]
        constructor
        · intro _
          simp [pkgBeforeModule, hpkg]
        · intro _
          exact ⟨_, rfl⟩
      | some m =>
        have hml' : ml.isEmpty = false := by
          cases ml with
          | nil => simp at hml
          | cons a t => rfl
        simp only [modulesTxtGo, hpkg, if_true, hml]
        rw [ih ml (m :: hp)]
        simp [hml', hbad, List.any_cons]
    · by_cases hmod : isModLine l
      · have hmod' : startsWithStr "# " l = true := hmod
        have hbad : badHashLine l = false := by
          unfold badHashLine
          rw [hmod']
          simp
        simp only [modulesTxtGo, hpkg, Bool.false_eq_true, if_false, hmod, if_true]
        rw [ih (ml ++ [strDrop l 2]) hp]
        have hne : (ml ++ [strDrop l 2]).isEmpty = false := by
          cases ml <;> rfl
        have hpb : pkgBeforeModule (l :: rest) = false := by
          unfold pkgBeforeModule
          rw [hmod]
          simp [hpkg]
        simp [hne, hbad, hpb, List.any_cons]
      · by_cases hmk : startsWithStr "##" l
        · have hbad : badHashLine l = false := by
            unfold badHashLine
            rw [hmk]
            simp
          simp only [modulesTxtGo, hpkg, Bool.false_eq_true, if_false, hmod, hmk, if_true]
          rw [ih ml hp]
          have hpb : pkgBeforeModule (l :: rest) =
              (isPkgLine l || (!(isModLine l) && pkgBeforeModule rest)) := rfl
          simp [hpb, hpkg, hmod, hbad, List.any_cons]
        · have hbad : badHashLine l = true := by
            unfold badHashLine
            have h1 : startsWithStr "#" l = true := by
              unfold isPkgLine at hpkg
              cases hb : startsWithStr "#" l
              · rw [hb] at hpkg
                exact absurd (by decide) hpkg
              · rfl
            have h2 : isModLine l = false := Bool.eq_false_iff.mpr hmod
            have h3 : startsWithStr "##" l = false := Bool.eq_false_iff.mpr hmk
            unfold isModLine at h2
            rw [h1, h2, h3]
            rfl
          simp only [modulesTxtGo, hpkg, Bool.false_eq_true, if_false, hmod, hmk]
          constructor
          · intro _
            simp [hbad, List.any_cons]
          · intro _
            exact ⟨_, rfl⟩

/-- Unfolding lemma for `specAssoc` on a cons cell. -/
theorem specAssoc_cons (cur : Option String) (l : String) (rest : List String) :
    specAssoc cur (l :: rest) =
      if isPkgLine l then
        (match cur with
         | some m => m :: specAssoc (some m) rest
         | none => specAssoc none rest)
      else if isModLine l then specAssoc (some (strDrop l 2)) rest
      else specAssoc cur rest := rfl

/-- `specAssoc` on a package line with a current module. -/
theorem specAssoc_pkg_some (m l : String) (rest : List String)
    (h : isPkgLine l = true) :
    specAssoc (some m) (l :: rest) = m :: specAssoc (some m) rest := by
  rw [specAssoc_cons, if_pos h]

/-- `specAssoc` on a module line. -/
theorem specAssoc_mod (cur : Option String) (l : String) (rest : List String)
    (h1 : isPkgLine l = false) (h2 : isModLine l = true) :
    specAssoc cur (l :: rest) = specAssoc (some (strDrop l 2)) rest := by
  rw [specAssoc_cons, if_neg (by simp [h1]), if_pos h2]

/-- `specAssoc` on any other (marker) line. -/
theorem specAssoc_other (cur : Option String) (l : String) (rest : List String)
    (h1 : isPkgLine l = false) (h2 : isModLine l = false) :
    specAssoc cur (l :: rest) = specAssoc cur rest := by
  rw [specAssoc_cons, if_neg (by simp [h1]), if_neg (by simp [h2])]

/-- A successful loop returns the collected module strings and marks
exactly the associated module strings. -/
theorem modulesTxtGo_ok (lines : List String) : ∀ ml hp ml' hp' : List String,
    modulesTxtGo lines ml hp = Except.ok (ml', hp') →
      ml' = ml ++ specModuleStrings lines ∧
      ∀ s, s ∈ hp' ↔ (s ∈ hp ∨ s ∈ specAssoc ml.getLast? lines) := by
  induction lines with
  | nil =>
    intro ml hp ml' hp' h
    unfold modulesTxtGo at h
    have h' := Except.ok.inj h
    obtain ⟨h1, h2⟩ := Prod.mk.injEq .. ▸ h'
    constructor
    · rw [← h1]; simp [specModuleStrings]
    · intro s; rw [← h2]; simp [specAssoc]
  | cons l rest ih =>
    intro ml hp ml' hp' h
    by_cases hpkg : isPkgLine l
    · cases hml : ml.getLast? with
      | none =>
        rw [show modulesTxtGo (l :: rest) ml hp =
            Except.error ("vendor/modules.txt: package has no parent module: " ++ l) by
          simp only [modulesTxtGo, hpkg, if_true, hml]] at h
        exact absurd h (by simp)
      | some m =>
        rw [show modulesTxtGo (l :: rest) ml hp = modulesTxtGo rest ml (m :: hp) by
          simp only [modulesTxtGo, hpkg, if_true, hml]] at h
        obtain ⟨h1, h2⟩ := ih ml (m :: hp) ml' hp' h
        have hspec : specModuleStrings (l :: rest) = specModuleStrings rest := by
          unfold specModuleStrings
          simp [List.filterMap_cons, (pkgLine_not_hash hpkg).1]
        refine ⟨by rw [h1, hspec], fun s => ?_⟩
        rw [h2 s, hml, specAssoc_pkg_some m l rest hpkg]
        simp only [List.mem_cons]
        tauto
    · by_cases hmod : isModLine l
      · rw [show modulesTxtGo (l :: rest) ml hp =
            modulesTxtGo rest (ml ++ [strDrop l 2]) hp by
          simp only [modulesTxtGo, hpkg, Bool.false_eq_true, if_false, hmod, if_true]] at h
        obtain ⟨h1, h2⟩ := ih (ml ++ [strDrop l 2]) hp ml' hp' h
        have hspec : specModuleStrings (l :: rest) = strDrop l 2 :: specModuleStrings rest := by
          unfold specModuleStrings
          simp [List.filterMap_cons, hmod]
        have hassoc : specAssoc (ml.getLast?) (l :: rest) =
            specAssoc (some (strDrop l 2)) rest :=
          specAssoc_mod _ l rest (Bool.eq_false_iff.mpr hpkg) hmod
        refine ⟨?_, fun s => ?_⟩
        · rw [h1, hspec, List.append_assoc]
          rfl
        · rw [h2 s, hassoc, List.getLast?_concat]
      · by_cases hmk : startsWithStr "##" l
        · rw [show modulesTxtGo (l :: rest) ml hp = modulesTxtGo rest ml hp by
            simp only [modulesTxtGo, hpkg, Bool.false_eq_true, if_false, hmod, hmk, if_true]] at h
          obtain ⟨h1, h2⟩ := ih ml hp ml' hp' h
          have hspec : specModuleStrings (l :: rest) = specModuleStrings rest := by
            unfold specModuleStrings
            simp [List.filterMap_cons, hmod]
          have hassoc : specAssoc (ml.getLast?) (l :: rest) =
              specAssoc (ml.getLast?) rest :=
            specAssoc_other _ l rest (Bool.eq_false_iff.mpr hpkg)
              (Bool.eq_false_iff.mpr hmod)
          exact ⟨by rw [h1, hspec], fun s => by rw [h2 s, hassoc]⟩
        · rw [show modulesTxtGo (l :: rest) ml hp =
              Except.error ("vendor/modules.txt: unexpected format: " ++ l) by
            simp only [modulesTxtGo, hpkg, Bool.false_eq_true, if_false, hmod, hmk]] at h
          exact absurd h (by simp)

/-- C9: parsing `vendor/modules.txt` returns exactly the stripped module
lines that had a package line associated (package lines associate with
the most recent module line), in order; it raises the malformed-vendor
error exactly when a package line appears before any module line or a
`#` line has neither `"# "` nor `"##"` as a prefix; `"##"` marker lines
are ignored. -/
theorem modules_txt_parsing (lines : List String) :
    ((∃ e, moduleLinesFromModulesTxt lines = Except.error e) ↔
      (pkgBeforeModule lines = true ∨ lines.any badHashLine = true))
    ∧ (∀ res, moduleLinesFromModulesTxt lines = Except.ok res →
        res = (specModuleStrings lines).filter
          (fun s => decide (s ∈ specAssoc none lines))) := by
  constructor
  · have hiff : (∃ e, moduleLinesFromModulesTxt lines = Except.error e) ↔
        (∃ e, modulesTxtGo lines [] [] = Except.error e) := by
      unfold moduleLinesFromModulesTxt
      cases h : modulesTxtGo lines [] [] with
      | error e => simp
      | ok p => simp
    rw [hiff, modulesTxtGo_error_iff lines [] []]
    simp [Bool.or_eq_true_iff]
  · intro res hres
    unfold moduleLinesFromModulesTxt at hres
    cases h : modulesTxtGo lines [] [] with
    | error e => rw [h] at hres; exact absurd hres (by simp)
    | ok p =>
      rw [h] at hres
      obtain ⟨h1, h2⟩ := modulesTxtGo_ok lines [] [] p.1 p.2 (by rw [h])
      have hres' := Except.ok.inj hres
      rw [← hres', h1, List.nil_append]
      apply List.filter_congr
      intro x _
      rw [decide_eq_decide]
      rw [h2 x]
      simp

/-- Witness for C9: one module with a package, one marker, one module
without packages. -/
theorem modules_txt_parsing_witness :
    ["mod1 v1.0.0"] =
      (specModuleStrings ["# mod1 v1.0.0", "pkgA", "## explicit", "# mod2 v2.0.0"]).filter
        (fun s =>
          decide (s ∈ specAssoc none ["# mod1 v1.0.0", "pkgA", "## explicit", "# mod2 v2.0.0"])) :=
  (modules_txt_parsing ["# mod1 v1.0.0", "pkgA", "## explicit", "# mod2 v2.0.0"]).2
    ["mod1 v1.0.0"] rfl

end Cachi2
